import Mathlib

/-!
Shallow embedding of the psychoacoustic correction engine
(`psychoacoustic_correction.cpp`): ISO 226 reference tables, the
phon-to-SPL interpolator, the correction-curve calculator, the FFT-bin
gain mapper, the gain smoother, the spectral corrector, and the adaptive
compensation factor.  Float arithmetic is modelled as exact real
arithmetic over `ℝ`; complex spectra over `ℂ`.  In-place updates of the
spectrum array are modelled by `Function.update` on index functions.
-/

namespace PsychoacousticCorrection

/-- Number of reference frequencies in the ISO 226 excerpt table. -/
def NUM_FREQUENCIES : ℕ := 29

/-- The 29 reference frequencies (Hz), 20 Hz to 12.5 kHz. -/
noncomputable def FREQUENCIES : ℕ → ℝ := fun i =>
  List.getD
    [20, 25, 31.5, 40, 50, 63, 80, 100, 125, 160, 200, 250, 315, 400, 500,
     630, 800, 1000, 1250, 1600, 2000, 2500, 3150, 4000, 5000, 6300, 8000,
     10000, 12500] i 0

/-- Number of phon levels declared for the SPL matrix. -/
def NUM_PHON_LEVELS : ℕ := 11

/-- The declared phon levels 0,10,…,100. -/
noncomputable def PHON_LEVELS : ℕ → ℝ := fun i =>
  List.getD [0, 10, 20, 30, 40, 50, 60, 70, 80, 90, 100] i 0

/-- SPL data rows: the C++ aggregate initializer populates only four rows
(0 phon, 10 phon, 40 phon, 60 phon); the remaining rows of the
`NUM_PHON_LEVELS × NUM_FREQUENCIES` array are value-initialized to zero,
which `List.getD`'s default reproduces. -/
noncomputable def ISO226_SPL : ℕ → ℕ → ℝ := fun row col =>
  List.getD
    (List.getD
      [[74.3, 65.0, 56.3, 48.4, 41.7, 35.5, 29.8, 25.1, 20.7, 16.8, 13.8,
        11.2, 8.9, 7.2, 6.0, 5.0, 4.4, 4.2, 3.7, 2.6, 1.0, -1.2, -3.6,
        -3.9, -1.1, 4.3, 11.1, 15.3, 16.4],
       [83.2, 74.3, 65.9, 58.0, 51.4, 45.5, 40.0, 35.2, 31.0, 27.0, 23.7,
        21.1, 18.8, 17.0, 15.7, 14.6, 13.8, 13.4, 13.0, 12.6, 11.8, 10.6,
        8.9, 7.9, 9.6, 14.4, 20.7, 24.7, 25.6],
       [99.8, 93.1, 86.5, 80.0, 74.1, 68.7, 63.6, 58.9, 54.5, 50.4, 46.6,
        43.1, 39.9, 37.1, 34.6, 32.4, 30.4, 29.0, 27.8, 26.6, 25.5, 23.9,
        22.0, 20.5, 21.3, 25.4, 31.3, 35.4, 36.6],
       [109.5, 103.7, 98.0, 92.6, 87.4, 82.5, 77.8, 73.4, 69.2, 65.2, 61.4,
        57.8, 54.5, 51.4, 48.6, 46.0, 43.5, 41.5, 40.0, 38.5, 37.2, 35.5,
        33.5, 31.6, 32.2, 36.0, 41.7, 45.8, 47.1]] row []) col 0

/-- The frequency-bracket scan of `interpolatePhonToSPL`, from index `i`:
returns the first index whose segment `[FREQUENCIES i, FREQUENCIES (i+1)]`
contains `frequency`, and `0` when the loop exhausts (the C++ `freqIdx`
keeps its initial value `0`).  `fuel` only bounds the recursion depth;
`NUM_FREQUENCIES` units suffice because `i` grows by one per iteration
and the loop stops at `NUM_FREQUENCIES - 1`. -/
noncomputable def findFreqIdxFrom (frequency : ℝ) : ℕ → ℕ → ℕ
  | _, 0 => 0
  | i, fuel + 1 =>
    if i < NUM_FREQUENCIES - 1 then
      if FREQUENCIES i ≤ frequency ∧ frequency ≤ FREQUENCIES (i + 1) then i
      else findFreqIdxFrom frequency (i + 1) fuel
    else 0

/-- The full bracket scan of `interpolatePhonToSPL` (loop from 0). -/
noncomputable def findFreqIdx (frequency : ℝ) : ℕ :=
  findFreqIdxFrom frequency 0 NUM_FREQUENCIES

/-- Embeds `PsychoacousticCorrection::interpolatePhonToSPL`: selects row 2
(40-phon data) unless `phonLevel > 50`, in which case row 3 (60-phon
data), then interpolates linearly along the bracketed frequency segment. -/
noncomputable def interpolatePhonToSPL (frequency phonLevel : ℝ) : ℝ :=
  let freqIdx := findFreqIdx frequency
  let phonIdx : ℕ := if 50 < phonLevel then 3 else 2
  let f1 := FREQUENCIES freqIdx
  let f2 := FREQUENCIES (freqIdx + 1)
  let spl1 := ISO226_SPL phonIdx freqIdx
  let spl2 := ISO226_SPL phonIdx (freqIdx + 1)
  let ratio := (frequency - f1) / (f2 - f1)
  spl1 + ratio * (spl2 - spl1)

/-- Embeds `PsychoacousticCorrection::calculateCorrectionCurve`. -/
noncomputable def calculateCorrectionCurve (currentPhon targetPhon : ℝ) : List ℝ :=
  (List.range NUM_FREQUENCIES).map fun i =>
    interpolatePhonToSPL (FREQUENCIES i) targetPhon -
      interpolatePhonToSPL (FREQUENCIES i) currentPhon

/-- The dB-to-linear conversion `std::pow(10.0f, gainDB / 20.0f)` used by
`convertToFFTBins`. -/
noncomputable def dbToLinear (gainDB : ℝ) : ℝ := (10 : ℝ) ^ (gainDB / 20)

/-- The `while` scan of `convertToFFTBins`: starting from `idx`, advances
while `idx < NUM_FREQUENCIES - 1` and `FREQUENCIES (idx+1) < freq`.
`fuel` bounds the recursion depth; `NUM_FREQUENCIES` units suffice since
`idx` grows by one per iteration and stops at `NUM_FREQUENCIES - 1`. -/
noncomputable def binScanFrom (freq : ℝ) : ℕ → ℕ → ℕ
  | idx, 0 => idx
  | idx, fuel + 1 =>
    if idx < NUM_FREQUENCIES - 1 ∧ FREQUENCIES (idx + 1) < freq then
      binScanFrom freq (idx + 1) fuel
    else idx

/-- Per-bin body of `convertToFFTBins`: the bin's gain starts at the
vector's fill value `1.0` and is overwritten with the interpolated linear
gain when the scan stops before the last table index. -/
noncomputable def binGain (sampleRate : ℝ) (fftSize : ℕ)
    (correctionCurve : ℕ → ℝ) (bin : ℕ) : ℝ :=
  let freq : ℝ := bin * sampleRate / fftSize
  let idx := binScanFrom freq 0 NUM_FREQUENCIES
  if idx < NUM_FREQUENCIES - 1 then
    let f1 := FREQUENCIES idx
    let f2 := FREQUENCIES (idx + 1)
    let g1 := correctionCurve idx
    let g2 := correctionCurve (idx + 1)
    let ratio := (freq - f1) / (f2 - f1)
    let gainDB := g1 + ratio * (g2 - g1)
    dbToLinear gainDB
  else 1

/-- Embeds `PsychoacousticCorrection::convertToFFTBins`, over the member
configuration `(sampleRate, fftSize)`. -/
noncomputable def convertToFFTBins (sampleRate : ℝ) (fftSize : ℕ)
    (correctionCurve : ℕ → ℝ) : List ℝ :=
  (List.range (fftSize / 2 + 1)).map (binGain sampleRate fftSize correctionCurve)

/-- Embeds `PsychoacousticCorrection::smoothTransition`: the C++ loop runs over
`newGains.size()` and indexes `currentGains` at the same positions (equal
sizes are the caller's precondition), which `zipWith` mirrors. -/
noncomputable def smoothTransition (newGains currentGains : List ℝ)
    (smoothingFactor : ℝ) : List ℝ :=
  List.zipWith
    (fun n c => c * smoothingFactor + n * (1 - smoothingFactor))
    newGains currentGains

/-- The per-bin adaptive gain of `applyCorrection`:
`1.0f + (gains[bin] - 1.0f) * adaptiveFactor`. -/
noncomputable def effectiveGain (gains : ℕ → ℝ) (adaptiveFactor : ℝ)
    (bin : ℕ) : ℝ :=
  1 + (gains bin - 1) * adaptiveFactor

/-- One iteration of the `applyCorrection` loop at index `bin`: scale
`spectrum[bin]` by the effective gain, then (for interior bins) write the
conjugate into the mirrored position `fftSize - bin`. -/
noncomputable def applyOne (fftSize numBins : ℕ) (gains : ℕ → ℝ)
    (adaptiveFactor : ℝ) (bin : ℕ) (spectrum : ℕ → ℂ) : ℕ → ℂ :=
  let s1 := Function.update spectrum bin
    ((effectiveGain gains adaptiveFactor bin : ℂ) * spectrum bin)
  if 0 < bin ∧ bin < numBins - 1 then
    Function.update s1 (fftSize - bin) ((starRingEnd ℂ) (s1 bin))
  else s1

/-- The `applyCorrection` loop after `n` iterations (bins `0..n-1`
processed in ascending order). -/
noncomputable def applyLoop (fftSize numBins : ℕ) (gains : ℕ → ℝ)
    (adaptiveFactor : ℝ) (spectrum : ℕ → ℂ) : ℕ → ℕ → ℂ
  | 0 => spectrum
  | n + 1 =>
    applyOne fftSize numBins gains adaptiveFactor n
      (applyLoop fftSize numBins gains adaptiveFactor spectrum n)

/-- Embeds `PsychoacousticCorrection::applyCorrection` on a spectrum of length
`fftSize` (modelled as an index function): the loop runs over all
`numBins = fftSize/2 + 1` bins. -/
noncomputable def applyCorrection (fftSize : ℕ) (spectrum : ℕ → ℂ)
    (gains : ℕ → ℝ) (adaptiveFactor : ℝ) : ℕ → ℂ :=
  applyLoop fftSize (fftSize / 2 + 1) gains adaptiveFactor spectrum
    (fftSize / 2 + 1)

/-- Embeds `OptimizedPsychoacousticEQ::getAdaptiveCompensationFactor`, with
`std::clamp(v, lo, hi)` translated by its definition
`v < lo ? lo : hi < v ? hi : v`. -/
noncomputable def getAdaptiveCompensationFactor (listeningDuration : ℝ) : ℝ :=
  let minutes := listeningDuration / 60
  let factor := 0.5 - 0.3 * Real.tanh (minutes / 10)
  if factor < 0.2 then 0.2 else if 0.5 < factor then 0.5 else factor

/-- The correction curve used by the C1 counterexample: 20 dB at the
first table frequency, 0 dB at all others. -/
noncomputable def dcCounterexampleCurve : ℕ → ℝ := fun i => if i = 0 then 20 else 0

/-- The non-Hermitian input spectrum used by the C3 counterexample:
`i` at bin 1, zero elsewhere (in particular zero at bin 3). -/
noncomputable def asymmetricSpectrum : ℕ → ℂ := fun n =>
  if n = 1 then Complex.I else 0

/-! ### Table facts and scan lemmas -/

lemma freq_lower_bound {j : ℕ} (hj : j < NUM_FREQUENCIES) :
    (20 : ℝ) ≤ FREQUENCIES j := by
  norm_num [NUM_FREQUENCIES] at hj
  interval_cases j <;> norm_num [FREQUENCIES]

lemma freq_upper_bound {j : ℕ} (hj : j < NUM_FREQUENCIES) :
    FREQUENCIES j ≤ 12500 := by
  norm_num [NUM_FREQUENCIES] at hj
  interval_cases j <;> norm_num [FREQUENCIES]

/-- If no segment starting at or after `i` brackets `f`, the scan of
`interpolatePhonToSPL` falls through and `freqIdx` keeps its initial 0. -/
lemma findFreqIdxFrom_of_none (f : ℝ) :
    ∀ fuel i,
      (∀ j, i ≤ j → j < NUM_FREQUENCIES - 1 →
        ¬(FREQUENCIES j ≤ f ∧ f ≤ FREQUENCIES (j + 1))) →
      findFreqIdxFrom f i fuel = 0 := by
  intro fuel
  induction fuel with
  | zero => intro i _; rfl
  | succ fuel ih =>
    intro i h
    rw [findFreqIdxFrom]
    by_cases hi : i < NUM_FREQUENCIES - 1
    · rw [if_pos hi, if_neg (h i le_rfl hi)]
      exact ih (i + 1) fun j hj => h j (by omega)
    · rw [if_neg hi]

/-- For a frequency beyond the last table entry the `while` scan of
`convertToFFTBins` runs to the last index. -/
lemma binScanFrom_high {freq : ℝ} (hf : 12500 < freq) :
    ∀ fuel i, i ≤ NUM_FREQUENCIES - 1 → NUM_FREQUENCIES - 1 ≤ i + fuel →
      binScanFrom freq i fuel = NUM_FREQUENCIES - 1 := by
  intro fuel
  induction fuel with
  | zero => intro i h1 h2; rw [binScanFrom]; omega
  | succ fuel ih =>
    intro i h1 h2
    rw [binScanFrom]
    by_cases hi : i < NUM_FREQUENCIES - 1
    · have hfi : FREQUENCIES (i + 1) < freq :=
        lt_of_le_of_lt (freq_upper_bound (by omega)) hf
      rw [if_pos ⟨hi, hfi⟩]
      exact ih (i + 1) (by omega) (by omega)
    · rw [if_neg (by tauto)]
      omega

/-! ### Claims about the interpolator and the correction curve -/

/-- C5: identical current and target phon levels yield the all-zero
correction curve of length `N = 29`. -/
theorem calculateCorrectionCurve_self_eq_zero (p : ℝ) :
    calculateCorrectionCurve p p = List.replicate 29 (0 : ℝ) := by
  have : calculateCorrectionCurve p p
      = (List.range NUM_FREQUENCIES).map fun _ => (0 : ℝ) := by
    unfold calculateCorrectionCurve
    exact List.map_congr_left fun i _ => sub_self _
  rw [this, List.map_const', List.length_range]
  norm_num [NUM_FREQUENCIES]

/-- C6: the interpolator depends on the phon argument only through the
test `phonLevel > 50`, so any two levels on the same side of 50 produce
identical SPL values at every frequency, and the correction curve for
such a pair is identically zero. -/
theorem interpolate_same_side_eq (f p1 p2 : ℝ)
    (h : (p1 ≤ 50 ∧ p2 ≤ 50) ∨ (50 < p1 ∧ 50 < p2)) :
    interpolatePhonToSPL f p1 = interpolatePhonToSPL f p2 ∧
      calculateCorrectionCurve p1 p2 = List.replicate 29 (0 : ℝ) := by
  have hrow : ∀ g : ℝ, interpolatePhonToSPL g p1 = interpolatePhonToSPL g p2 := by
    intro g
    unfold interpolatePhonToSPL
    rcases h with ⟨h1, h2⟩ | ⟨h1, h2⟩
    · rw [if_neg (not_lt.2 h1), if_neg (not_lt.2 h2)]
    · rw [if_pos h1, if_pos h2]
  refine ⟨hrow f, ?_⟩
  have : calculateCorrectionCurve p1 p2
      = (List.range NUM_FREQUENCIES).map fun _ => (0 : ℝ) := by
    unfold calculateCorrectionCurve
    exact List.map_congr_left fun i _ => by rw [hrow (FREQUENCIES i), sub_self]
  rw [this, List.map_const', List.length_range]
  norm_num [NUM_FREQUENCIES]

/-- Witness for C6 at `f = 1000`, `p1 = 40`, `p2 = 45`. -/
theorem interpolate_same_side_eq_witness :
    interpolatePhonToSPL 1000 40 = interpolatePhonToSPL 1000 45 ∧
      calculateCorrectionCurve 40 45 = List.replicate 29 (0 : ℝ) :=
  interpolate_same_side_eq 1000 40 45 (Or.inl ⟨by norm_num, by norm_num⟩)

/-- C2 (divergence at the failing input): at the exact table frequency
1000 Hz and the exact table phon level 0, the code returns 29 — the
40-phon row value — although the loudness surface tabulates 4.2 for
(0 phon, 1000 Hz); a bilinear interpolation across the full phon table
would return the tabulated value at a table-exact point. -/
theorem interpolate_ignores_phon_axis :
    interpolatePhonToSPL 1000 0 = 29 ∧
      FREQUENCIES 17 = 1000 ∧ PHON_LEVELS 0 = 0 ∧ ISO226_SPL 0 17 = 4.2 := by
  refine ⟨?_, by norm_num [FREQUENCIES], by norm_num [PHON_LEVELS],
    by norm_num [ISO226_SPL]⟩
  norm_num [interpolatePhonToSPL, findFreqIdx, findFreqIdxFrom, FREQUENCIES,
    ISO226_SPL, NUM_FREQUENCIES]

/-- C10: for any frequency strictly outside the tabulated range on either
side, the bracket scan leaves the index at 0 and the interpolator
linearly extrapolates along the first table segment 20–25 Hz. -/
theorem interpolate_out_of_range_extrapolates (p f : ℝ)
    (h : f < 20 ∨ 12500 < f) :
    findFreqIdx f = 0 ∧
      interpolatePhonToSPL f p =
        ISO226_SPL (if 50 < p then 3 else 2) 0 +
          ((f - 20) / 5) *
            (ISO226_SPL (if 50 < p then 3 else 2) 1 -
              ISO226_SPL (if 50 < p then 3 else 2) 0) := by
  have hidx : findFreqIdx f = 0 := by
    unfold findFreqIdx
    apply findFreqIdxFrom_of_none
    intro j hj hj'
    rcases h with hlo | hhi
    · rintro ⟨hle, -⟩
      exact absurd (le_trans (freq_lower_bound (by omega)) hle) (not_le.2 hlo)
    · rintro ⟨-, hge⟩
      exact absurd (le_trans hge (freq_upper_bound (by omega))) (not_le.2 hhi)
  refine ⟨hidx, ?_⟩
  unfold interpolatePhonToSPL
  rw [hidx]
  have h0 : FREQUENCIES 0 = 20 := by norm_num [FREQUENCIES]
  have h1 : FREQUENCIES 1 = 25 := by norm_num [FREQUENCIES]
  simp only [h0, h1]
  norm_num

/-- Witness for C10 at `p = 40`, `f = 0` (the DC frequency). -/
theorem interpolate_out_of_range_extrapolates_witness :
    ((0 : ℝ) < 20 ∨ (12500 : ℝ) < 0) ∧
      (findFreqIdx 0 = 0 ∧
        interpolatePhonToSPL 0 40 =
          ISO226_SPL (if (50 : ℝ) < 40 then 3 else 2) 0 +
            ((0 - 20) / 5) *
              (ISO226_SPL (if (50 : ℝ) < 40 then 3 else 2) 1 -
                ISO226_SPL (if (50 : ℝ) < 40 then 3 else 2) 0)) :=
  ⟨Or.inl (by norm_num),
    interpolate_out_of_range_extrapolates 40 0 (Or.inl (by norm_num))⟩

/-! ### Claims about the FFT-bin gain mapper -/

lemma convertToFFTBins_getD (sampleRate : ℝ) (fftSize : ℕ) (c : ℕ → ℝ)
    {k : ℕ} (hk : k < fftSize / 2 + 1) :
    (convertToFFTBins sampleRate fftSize c).getD k 0
      = binGain sampleRate fftSize c k := by
  unfold convertToFFTBins
  rw [List.getD_eq_getElem?_getD, List.getElem?_map, List.getElem?_range hk]
  rfl

/-- For a bin frequency below the first table segment's upper end the
`while` scan never advances. -/
lemma binGain_low (sampleRate : ℝ) (fftSize : ℕ) (c : ℕ → ℝ) (bin : ℕ)
    (hlo : (bin : ℝ) * sampleRate / (fftSize : ℝ) < 20) :
    binGain sampleRate fftSize c bin =
      dbToLinear (c 0 +
        (((bin : ℝ) * sampleRate / (fftSize : ℝ) - 20) / 5) * (c 1 - c 0)) := by
  simp only [binGain]
  have hscan : binScanFrom ((bin : ℝ) * sampleRate / (fftSize : ℝ)) 0
      NUM_FREQUENCIES = 0 := by
    rw [show NUM_FREQUENCIES = 28 + 1 from rfl, binScanFrom]
    rw [if_neg]
    rintro ⟨-, hlt⟩
    rw [show FREQUENCIES (0 + 1) = 25 by norm_num [FREQUENCIES]] at hlt
    linarith
  rw [hscan]
  rw [if_pos (by norm_num [NUM_FREQUENCIES])]
  have h0 : FREQUENCIES 0 = 20 := by norm_num [FREQUENCIES]
  have h1 : FREQUENCIES (0 + 1) = 25 := by norm_num [FREQUENCIES]
  rw [h0, h1]
  norm_num

/-- For a bin frequency beyond the last table entry the scan runs to the
last index and the unity fill value survives. -/
lemma binGain_high (sampleRate : ℝ) (fftSize : ℕ) (c : ℕ → ℝ) (bin : ℕ)
    (hhi : 12500 < (bin : ℝ) * sampleRate / (fftSize : ℝ)) :
    binGain sampleRate fftSize c bin = 1 := by
  simp only [binGain]
  rw [binScanFrom_high hhi NUM_FREQUENCIES 0 (by norm_num) (by norm_num)]
  rw [if_neg (by omega)]

/-- C9: the mapper's output always has `transformSize/2 + 1` entries and
every entry is strictly positive (either the fill value 1 or a power of
10). -/
theorem convertToFFTBins_length_and_pos (sampleRate : ℝ) (fftSize : ℕ)
    (c : ℕ → ℝ) :
    (convertToFFTBins sampleRate fftSize c).length = fftSize / 2 + 1 ∧
      ∀ x ∈ convertToFFTBins sampleRate fftSize c, 0 < x := by
  constructor
  · simp [convertToFFTBins]
  · intro x hx
    rw [convertToFFTBins, List.mem_map] at hx
    obtain ⟨bin, -, rfl⟩ := hx
    simp only [binGain]
    split
    · exact Real.rpow_pos_of_pos (by norm_num) _
    · norm_num

/-- C1 counterexample: with `sampleRate = 48000`, `transformSize = 2048`
and a correction curve that is 20 dB at the first table frequency and
0 dB elsewhere, the DC bin (centre frequency 0 Hz, below the first table
frequency 20 Hz) receives gain `10^5 = 100000`, not unity: the scan
leaves `idx = 0` and the interpolation extrapolates below the table. -/
theorem convertToFFTBins_dc_not_unity :
    (convertToFFTBins 48000 2048 dcCounterexampleCurve).getD 0 0 ≠ 1 := by
  rw [convertToFFTBins_getD 48000 2048 _ (by norm_num)]
  rw [binGain_low 48000 2048 dcCounterexampleCurve 0 (by norm_num)]
  norm_num [dcCounterexampleCurve]
  rw [show dbToLinear 100 = 100000 by
    unfold dbToLinear
    rw [show (100 : ℝ) / 20 = ((5 : ℕ) : ℝ) by norm_num, Real.rpow_natCast]
    norm_num]
  norm_num

/-- C1 as amended: bins whose centre frequency lies strictly above the
last table frequency (12.5 kHz) do get linear gain exactly 1; but bins
below the first table frequency (20 Hz, including DC) instead get the
dB-domain linear extrapolation of the first table segment converted to
linear gain, which is 1 only when that extrapolated dB value is 0. -/
theorem convertToFFTBins_boundary (sampleRate : ℝ) (fftSize : ℕ)
    (c : ℕ → ℝ) (bin : ℕ) (hbin : bin < fftSize / 2 + 1) :
    (12500 < (bin : ℝ) * sampleRate / (fftSize : ℝ) →
      (convertToFFTBins sampleRate fftSize c).getD bin 0 = 1) ∧
    ((bin : ℝ) * sampleRate / (fftSize : ℝ) < 20 →
      (convertToFFTBins sampleRate fftSize c).getD bin 0 =
        dbToLinear (c 0 +
          (((bin : ℝ) * sampleRate / (fftSize : ℝ) - 20) / 5) * (c 1 - c 0))) := by
  rw [convertToFFTBins_getD sampleRate fftSize c hbin]
  exact ⟨binGain_high sampleRate fftSize c bin,
    binGain_low sampleRate fftSize c bin⟩

/-- Witness for the amended C1 at `sampleRate = 48000`,
`transformSize = 2048`, the all-zero curve and the DC bin. -/
theorem convertToFFTBins_boundary_witness :
    ((0 : ℕ) < 2048 / 2 + 1 ∧ ((0 : ℕ) : ℝ) * 48000 / ((2048 : ℕ) : ℝ) < 20) ∧
      (convertToFFTBins 48000 2048 (fun _ => 0)).getD 0 0 =
        dbToLinear ((fun _ => (0 : ℝ)) 0 +
          ((((0 : ℕ) : ℝ) * 48000 / ((2048 : ℕ) : ℝ) - 20) / 5) *
            ((fun _ => (0 : ℝ)) 1 - (fun _ => (0 : ℝ)) 0)) :=
  ⟨⟨by norm_num, by norm_num⟩,
    (convertToFFTBins_boundary 48000 2048 (fun _ => 0) 0 (by norm_num)).2
      (by norm_num)⟩

/-! ### Claim about the gain smoother -/

/-- C7: blending a gain vector with itself is the identity for every
smoothing factor, since `g*s + g*(1-s) = g` exactly. -/
theorem smoothTransition_self (g : List ℝ) (s : ℝ) :
    smoothTransition g g s = g := by
  unfold smoothTransition
  induction g with
  | nil => rfl
  | cons x xs ih =>
    rw [List.zipWith_cons_cons, ih]
    congr 1
    ring

/-! ### Claims about the spectral corrector -/

/-- After `n` iterations, a position `k` in the non-negative-frequency
half holds its scaled value when `k < n` and its original value
otherwise: mirror writes land at `fftSize - bin ≥ fftSize/2 + 1` and
never touch the lower half. -/
lemma applyLoop_lower (fftSize : ℕ) (gains : ℕ → ℝ) (a : ℝ)
    (spectrum : ℕ → ℂ) :
    ∀ n, n ≤ fftSize / 2 + 1 → ∀ k, k < fftSize / 2 + 1 →
      applyLoop fftSize (fftSize / 2 + 1) gains a spectrum n k
        = if k < n then (effectiveGain gains a k : ℂ) * spectrum k
          else spectrum k := by
  intro n
  induction n with
  | zero => intro _ k _; rw [applyLoop, if_neg (by omega)]
  | succ n ih =>
    intro hn k hk
    rw [applyLoop]
    simp only [applyOne]
    have hLn : applyLoop fftSize (fftSize / 2 + 1) gains a spectrum n n
        = spectrum n := by
      rw [ih (by omega) n (by omega), if_neg (by omega)]
    by_cases hmir : 0 < n ∧ n < fftSize / 2 + 1 - 1
    · rw [if_pos hmir]
      rw [Function.update_noteq (show k ≠ fftSize - n by omega)]
      by_cases hkn : k = n
      · subst hkn
        rw [Function.update_same, hLn, if_pos (by omega)]
      · rw [Function.update_noteq hkn, ih (by omega) k hk]
        by_cases hlt : k < n
        · rw [if_pos hlt, if_pos (by omega)]
        · rw [if_neg hlt, if_neg (by omega)]
    · rw [if_neg hmir]
      by_cases hkn : k = n
      · subst hkn
        rw [Function.update_same, hLn, if_pos (by omega)]
      · rw [Function.update_noteq hkn, ih (by omega) k hk]
        by_cases hlt : k < n
        · rw [if_pos hlt, if_pos (by omega)]
        · rw [if_neg hlt, if_neg (by omega)]

/-- After `n` iterations, the mirrored position `fftSize - j` of an
interior bin `j` holds the conjugate of bin `j`'s scaled value once bin
`j` has been processed, and its original value before that. -/
lemma applyLoop_mirror (fftSize : ℕ) (gains : ℕ → ℝ) (a : ℝ)
    (spectrum : ℕ → ℂ) :
    ∀ n, n ≤ fftSize / 2 + 1 → ∀ j, 0 < j → j < fftSize / 2 + 1 - 1 →
      applyLoop fftSize (fftSize / 2 + 1) gains a spectrum n (fftSize - j)
        = if j < n then
            (starRingEnd ℂ) ((effectiveGain gains a j : ℂ) * spectrum j)
          else spectrum (fftSize - j) := by
  intro n
  induction n with
  | zero => intro _ j _ _; rw [applyLoop, if_neg (by omega)]
  | succ n ih =>
    intro hn j hj hj'
    rw [applyLoop]
    simp only [applyOne]
    have hLn : applyLoop fftSize (fftSize / 2 + 1) gains a spectrum n n
        = spectrum n := by
      rw [applyLoop_lower fftSize gains a spectrum n (by omega) n (by omega),
        if_neg (by omega)]
    by_cases hmir : 0 < n ∧ n < fftSize / 2 + 1 - 1
    · rw [if_pos hmir]
      by_cases hjn : j = n
      · subst hjn
        rw [Function.update_same, Function.update_same, hLn, if_pos (by omega)]
      · rw [Function.update_noteq (show fftSize - j ≠ fftSize - n by omega)]
        rw [Function.update_noteq (show fftSize - j ≠ n by omega)]
        rw [ih (by omega) j hj hj']
        by_cases hlt : j < n
        · rw [if_pos hlt, if_pos (by omega)]
        · rw [if_neg hlt, if_neg (by omega)]
    · rw [if_neg hmir]
      have hjn : j ≠ n := by rintro rfl; exact hmir ⟨hj, hj'⟩
      rw [Function.update_noteq (show fftSize - j ≠ n by omega)]
      rw [ih (by omega) j hj hj']
      by_cases hlt : j < n
      · rw [if_pos hlt, if_pos (by omega)]
      · rw [if_neg hlt, if_neg (by omega)]

/-- C3 counterexample: with `transformSize = 4`, all-unity gains and
`strength = 0`, the operation still overwrites the upper mirrored half:
position `3 = transformSize - 1` becomes `conj(spectrum[1]) = -i`,
although it originally held `0`. -/
theorem applyCorrection_strength_zero_changes_upper_half :
    applyCorrection 4 asymmetricSpectrum (fun _ => 1) 0 3
      ≠ asymmetricSpectrum 3 := by
  unfold applyCorrection
  rw [show (3 : ℕ) = 4 - 1 from rfl]
  rw [applyLoop_mirror 4 (fun _ => 1) 0 asymmetricSpectrum (4 / 2 + 1)
    le_rfl 1 (by norm_num) (by norm_num)]
  rw [if_pos (by norm_num)]
  simp [asymmetricSpectrum, effectiveGain, Complex.ext_iff]

/-- C3 as amended: with `strength = 0` every bin of the
non-negative-frequency half `0 ≤ k ≤ transformSize/2` is unchanged
(`effectiveGain = 1`); the upper mirrored half is still overwritten with
conjugates, so it is unchanged only for inputs that are already
Hermitian-symmetric. -/
theorem applyCorrection_strength_zero_fixes_half (fftSize : ℕ)
    (spectrum : ℕ → ℂ) (gains : ℕ → ℝ) (k : ℕ)
    (hk : k < fftSize / 2 + 1) :
    applyCorrection fftSize spectrum gains 0 k = spectrum k := by
  unfold applyCorrection
  rw [applyLoop_lower fftSize gains 0 spectrum (fftSize / 2 + 1) le_rfl k hk]
  rw [if_pos hk]
  norm_num [effectiveGain]

/-- Witness for the amended C3 at `transformSize = 4`, bin 1. -/
theorem applyCorrection_strength_zero_fixes_half_witness :
    (1 : ℕ) < 4 / 2 + 1 ∧
      applyCorrection 4 (fun _ => 1) (fun _ => 2) 0 1 = (fun _ => (1 : ℂ)) 1 :=
  ⟨by norm_num,
    applyCorrection_strength_zero_fixes_half 4 (fun _ => 1) (fun _ => 2) 1
      (by norm_num)⟩

/-- C4: after `applyCorrection`, every interior bin's mirror position
holds exactly the conjugate of that bin, and the DC bin 0 and the
Nyquist bin `B - 1 = transformSize/2` receive only their own gain
multiplication — never a mirrored conjugate write. -/
theorem applyCorrection_preserves_hermitian (fftSize : ℕ)
    (spectrum : ℕ → ℂ) (gains : ℕ → ℝ) (a : ℝ) :
    (∀ k, 0 < k → k < fftSize / 2 + 1 - 1 →
      applyCorrection fftSize spectrum gains a (fftSize - k)
        = (starRingEnd ℂ) (applyCorrection fftSize spectrum gains a k)) ∧
    applyCorrection fftSize spectrum gains a 0
        = (effectiveGain gains a 0 : ℂ) * spectrum 0 ∧
    applyCorrection fftSize spectrum gains a (fftSize / 2)
        = (effectiveGain gains a (fftSize / 2) : ℂ) * spectrum (fftSize / 2) := by
  refine ⟨?_, ?_, ?_⟩
  · intro k hk hk'
    unfold applyCorrection
    rw [applyLoop_mirror fftSize gains a spectrum (fftSize / 2 + 1) le_rfl
      k hk hk']
    rw [if_pos (by omega)]
    rw [applyLoop_lower fftSize gains a spectrum (fftSize / 2 + 1) le_rfl
      k (by omega)]
    rw [if_pos (by omega)]
  · unfold applyCorrection
    rw [applyLoop_lower fftSize gains a spectrum (fftSize / 2 + 1) le_rfl
      0 (by omega)]
    rw [if_pos (by omega)]
  · unfold applyCorrection
    rw [applyLoop_lower fftSize gains a spectrum (fftSize / 2 + 1) le_rfl
      (fftSize / 2) (by omega)]
    rw [if_pos (by omega)]

/-- Witness for C4 at `transformSize = 4`, bin 1. -/
theorem applyCorrection_preserves_hermitian_witness :
    applyCorrection 4 (fun n => (n : ℂ)) (fun _ => 2) 1 (4 - 1)
      = (starRingEnd ℂ) (applyCorrection 4 (fun n => (n : ℂ)) (fun _ => 2) 1 1) :=
  (applyCorrection_preserves_hermitian 4 (fun n => (n : ℂ)) (fun _ => 2) 1).1
    1 (by norm_num) (by norm_num)

/-! ### Claim about the adaptive compensation factor -/

lemma tanh_mono {x y : ℝ} (h : x ≤ y) : Real.tanh x ≤ Real.tanh y := by
  rw [Real.tanh_eq_sinh_div_cosh, Real.tanh_eq_sinh_div_cosh,
    div_le_div_iff₀ (Real.cosh_pos x) (Real.cosh_pos y)]
  have hs : Real.sinh (x - y) ≤ 0 := Real.sinh_nonpos_iff.2 (by linarith)
  have hsub := Real.sinh_sub x y
  have hcomm : Real.cosh x * Real.sinh y = Real.sinh y * Real.cosh x :=
    mul_comm _ _
  linarith

/-- The clamp `std::clamp(v, 0.2, 0.5)` in max/min form. -/
lemma clamp_eq_max_min (v : ℝ) :
    (if v < 0.2 then (0.2 : ℝ) else if 0.5 < v then 0.5 else v)
      = max 0.2 (min v 0.5) := by
  rcases lt_or_le v 0.2 with h1 | h1
  · rw [if_pos h1, max_eq_left]
    exact le_trans (min_le_left _ _) (le_of_lt h1)
  · rw [if_neg (not_lt.2 h1)]
    rcases lt_or_le 0.5 v with h2 | h2
    · rw [if_pos h2, min_eq_right (le_of_lt h2), max_eq_right (by norm_num)]
    · rw [if_neg (not_lt.2 h2), min_eq_left h2, max_eq_right h1]

lemma getAdaptiveCompensationFactor_eq (t : ℝ) :
    getAdaptiveCompensationFactor t
      = max 0.2 (min (0.5 - 0.3 * Real.tanh (t / 60 / 10)) 0.5) := by
  simp only [getAdaptiveCompensationFactor]
  exact clamp_eq_max_min _

/-- C8: the adaptive compensation factor equals
`clamp(0.5 - 0.3*tanh(minutes/10), 0.2, 0.5)` with
`minutes = listeningSeconds/60`, always lies in `[0.2, 0.5]`, equals
`0.5` at zero listening time, and is monotonically non-increasing in the
listening time. -/
theorem adaptiveCompensationFactor_spec (t : ℝ) (h : 0 ≤ t) :
    getAdaptiveCompensationFactor t
        = max 0.2 (min (0.5 - 0.3 * Real.tanh (t / 60 / 10)) 0.5) ∧
      0.2 ≤ getAdaptiveCompensationFactor t ∧
      getAdaptiveCompensationFactor t ≤ 0.5 ∧
      getAdaptiveCompensationFactor 0 = 0.5 ∧
      ∀ t', t ≤ t' →
        getAdaptiveCompensationFactor t' ≤ getAdaptiveCompensationFactor t := by
  refine ⟨getAdaptiveCompensationFactor_eq t, ?_, ?_, ?_, ?_⟩
  · rw [getAdaptiveCompensationFactor_eq t]
    exact le_max_left _ _
  · rw [getAdaptiveCompensationFactor_eq t]
    exact max_le (by norm_num) (min_le_right _ _)
  · rw [getAdaptiveCompensationFactor_eq 0]
    rw [show (0 : ℝ) / 60 / 10 = 0 by norm_num, Real.tanh_zero]
    norm_num
  · intro t' ht'
    rw [getAdaptiveCompensationFactor_eq t, getAdaptiveCompensationFactor_eq t']
    have htanh : Real.tanh (t / 60 / 10) ≤ Real.tanh (t' / 60 / 10) :=
      tanh_mono (by linarith)
    exact max_le_max le_rfl (min_le_min (by linarith) le_rfl)

/-- Witness for C8 at `listeningSeconds = 0`. -/
theorem adaptiveCompensationFactor_spec_witness :
    (0 : ℝ) ≤ 0 ∧
      (getAdaptiveCompensationFactor 0
          = max 0.2 (min (0.5 - 0.3 * Real.tanh ((0 : ℝ) / 60 / 10)) 0.5) ∧
        0.2 ≤ getAdaptiveCompensationFactor 0 ∧
        getAdaptiveCompensationFactor 0 ≤ 0.5 ∧
        getAdaptiveCompensationFactor 0 = 0.5 ∧
        ∀ t', (0 : ℝ) ≤ t' →
          getAdaptiveCompensationFactor t' ≤ getAdaptiveCompensationFactor 0) :=
  ⟨le_rfl, adaptiveCompensationFactor_spec 0 le_rfl⟩

end PsychoacousticCorrection
